import Mathlib

/-!
Verification of the marketing-intelligence analytics pipeline.

The repository derives several views from raw news records: a sentiment
mix, an industry impact ranking, a risk-type distribution, an
urgency/impact scatter set, and a chronologically grouped feed, plus a
keyword/interval configuration reconciler.  The definitions below are a
shallow embedding of the relevant TypeScript functions
(`src/frontend/src/components/AdminSettings.tsx` and the news-feed
component).  Timestamps are modelled as integer minutes on a linear
clock; the date-fns helpers `subHours`, `subDays`, `subMonths`,
`subYears` and `startOfDay` are modelled over that clock (months as 30
days, years as 365 days); both call sites of each helper share the one
model function, exactly as both call sites share the one date-fns
function.  JavaScript number fields that may be absent are modelled as
`Option ℚ`, with the JavaScript comparison semantics made explicit where
they matter (`undefined > 7` and `undefined < 4` are both `false`;
`x + undefined` is `NaN`, modelled as `none`).
-/

/-! ### String constants of the source -/

def highStr : String := "High"

def mediumStr : String := "Medium"

def generalStr : String := "General"

def positiveStr : String := "Positive"

def neutralStr : String := "Neutral"

def riskStr : String := "Risk"

def noneStr : String := "None"

def otherStr : String := "Other"

/-! ### Time model (date-fns over a linear clock of minutes) -/

/-- Model of date-fns `subHours h now`. -/
def subHours (h t : ℤ) : ℤ := t - 60 * h

/-- Model of date-fns `subDays d now`. -/
def subDays (d t : ℤ) : ℤ := t - 1440 * d

/-- Model of date-fns `subMonths m now` over the linear clock (months as
30 days).  Both call sites of the source invoke this same function. -/
def subMonths (m t : ℤ) : ℤ := t - 43200 * m

/-- Model of date-fns `subYears y now` over the linear clock (years as
365 days). -/
def subYears (y t : ℤ) : ℤ := t - 525600 * y

/-- Model of date-fns `startOfDay now`: the start of the calendar day
containing `t`. -/
def startOfDay (t : ℤ) : ℤ := 1440 * (t / 1440)

/-- The named time ranges.  The news feed offers all five; the analytics
component's `TimeRange` type omits `Quarterly`. -/
inductive TimeRange
  | Daily
  | Weekly
  | Monthly
  | Quarterly
  | Yearly
deriving DecidableEq

/-- Cutoff computed by the news feed (`filteredAndSortedNews`):
`Daily` is `startOfDay(now)`, `Weekly` is `subDays(now, 7)`, `Monthly`
is `subMonths(now, 1)`, `Quarterly` is `subMonths(now, 3)`, `Yearly` is
`subYears(now, 1)`. -/
def newsFeedStartDate (r : TimeRange) (now : ℤ) : ℤ :=
  match r with
  | .Daily => startOfDay now
  | .Weekly => subDays 7 now
  | .Monthly => subMonths 1 now
  | .Quarterly => subMonths 3 now
  | .Yearly => subYears 1 now

/-- Cutoff computed by the analytics view (`filteredSentimentData`):
`Daily` is `subHours(now, 24)`, `Weekly` is `subDays(now, 7)`, `Monthly`
is `subMonths(now, 1)`, `Yearly` is `subYears(now, 1)`; the switch's
`default` branch is `subMonths(now, 1)` (the component's range type does
not offer `Quarterly`, which therefore falls to the default). -/
def analyticsStartDate (r : TimeRange) (now : ℤ) : ℤ :=
  match r with
  | .Daily => subHours 24 now
  | .Weekly => subDays 7 now
  | .Monthly => subMonths 1 now
  | .Yearly => subYears 1 now
  | .Quarterly => subMonths 1 now

/-- C5: The Daily time window is defined inconsistently across the two
call sites: there is a reference instant at which the news-feed Daily
cutoff (start of the current calendar day) differs from the analytics
Daily cutoff (now minus 24 hours), while the Weekly, Monthly and Yearly
cutoffs agree at both sites for every reference instant. -/
theorem c5_daily_window_inconsistent :
    (∃ now : ℤ, newsFeedStartDate .Daily now ≠ analyticsStartDate .Daily now) ∧
      (∀ now : ℤ, newsFeedStartDate .Weekly now = analyticsStartDate .Weekly now ∧
        newsFeedStartDate .Monthly now = analyticsStartDate .Monthly now ∧
        newsFeedStartDate .Yearly now = analyticsStartDate .Yearly now) := by
  refine ⟨⟨720, by decide⟩, fun now => ⟨rfl, rfl, rfl⟩⟩

/-! ### ConfigReconciler (AdminSettings: `useEffect` hydration, `addKeyword`, `removeKeyword`) -/

/-- The remote `AdminConfig` payload `{search_keywords, scraping_interval_minutes}`. -/
structure AdminConfig where
  search_keywords : List String
  scraping_interval_minutes : ℤ
deriving DecidableEq

/-- The local component state touched by the hydration effect:
`keywords`, `interval` and `selectedIndustry`. -/
structure LocalConfig where
  keywords : List String
  interval : ℤ
  selectedIndustry : String
deriving DecidableEq

/-- One run of the hydration effect on a successful config fetch
(AdminSettings lines 42-50): while the local keyword list is empty, copy
the remote keywords and interval into local state, and, if the remote
keyword list is nonempty, set the selected industry to its first
element; otherwise leave the state unchanged. -/
def hydrate (cfg : AdminConfig) (s : LocalConfig) : LocalConfig :=
  if s.keywords = [] then
    { keywords := cfg.search_keywords
      interval := cfg.scraping_interval_minutes
      selectedIndustry :=
        match cfg.search_keywords with
        | [] => s.selectedIndustry
        | k :: _ => k }
  else s

def solarStr : String := "Solar"

/-- `addKeyword` (AdminSettings lines 200-207) restricted to its effect
on the keyword list: if the new keyword is nonempty (JavaScript
truthiness of a string) and not already present (case-sensitive
`includes`), append it; otherwise no-op. -/
def addKeyword (kw : String) (ks : List String) : List String :=
  if kw ≠ "" ∧ kw ∉ ks then ks ++ [kw] else ks

/-- `removeKeyword` (AdminSettings lines 209-213) restricted to its
effect on the keyword list: `keywords.filter(k => k !== kw)`. -/
def removeKeyword (kw : String) (ks : List String) : List String :=
  ks.filter fun k => k ≠ kw

/-- C6: hydration copies remote keywords and interval into local state
only while the local keyword list is empty; after local keywords have
been hydrated to `["EV", "Steel"]`, a second successful fetch returning
`{keywords: ["EV"]}` does not change the local state at all. -/
theorem c6_hydration_once (s : LocalConfig) (cfg1 cfg2 : AdminConfig)
    (h : s.keywords = [])
    (h1 : cfg1.search_keywords = ["EV", "Steel"]) :
    (hydrate cfg1 s).keywords = ["EV", "Steel"] ∧
      (hydrate cfg1 s).interval = cfg1.scraping_interval_minutes ∧
      hydrate cfg2 (hydrate cfg1 s) = hydrate cfg1 s := by
  simp [hydrate, h, h1]

/-- Witness for `c6_hydration_once` at a concrete state and configs. -/
theorem c6_hydration_once_witness :
    (hydrate ⟨["EV", "Steel"], 30⟩ ⟨[], 60, "Electric Vehicle"⟩).keywords
        = ["EV", "Steel"] ∧
      (hydrate ⟨["EV", "Steel"], 30⟩ ⟨[], 60, "Electric Vehicle"⟩).interval = 30 ∧
      hydrate ⟨["EV"], 45⟩ (hydrate ⟨["EV", "Steel"], 30⟩ ⟨[], 60, "Electric Vehicle"⟩)
        = hydrate ⟨["EV", "Steel"], 30⟩ ⟨[], 60, "Electric Vehicle"⟩ :=
  c6_hydration_once ⟨[], 60, "Electric Vehicle"⟩ ⟨["EV", "Steel"], 30⟩
    ⟨["EV"], 45⟩ rfl rfl

/-- C10: the hydration guard tests only emptiness of the local keyword
list, not whether a fetch has already succeeded: any successful fetch
arriving while local keywords is empty copies the remote keywords and
interval; in particular a first successful fetch whose keyword list is
empty leaves the guard open, and a later successful fetch with a
nonempty keyword list overwrites local state even after that earlier
successful fetch. -/
theorem c10_hydration_guard_not_latched (s : LocalConfig) (cfgE cfgN : AdminConfig)
    (h : s.keywords = []) (hE : cfgE.search_keywords = []) :
    (hydrate cfgN s).keywords = cfgN.search_keywords ∧
      (hydrate cfgN s).interval = cfgN.scraping_interval_minutes ∧
      (hydrate cfgE s).keywords = [] ∧
      (hydrate cfgN (hydrate cfgE s)).keywords = cfgN.search_keywords ∧
      (hydrate cfgN (hydrate cfgE s)).interval = cfgN.scraping_interval_minutes := by
  simp [hydrate, h, hE]

/-- Witness for `c10_hydration_guard_not_latched` at a concrete state
and configs. -/
theorem c10_hydration_guard_not_latched_witness :
    (hydrate ⟨["EV"], 45⟩ ⟨[], 60, ""⟩).keywords = ["EV"] ∧
      (hydrate ⟨["EV"], 45⟩ ⟨[], 60, ""⟩).interval = 45 ∧
      (hydrate ⟨[], 30⟩ ⟨[], 60, ""⟩).keywords = [] ∧
      (hydrate ⟨["EV"], 45⟩ (hydrate ⟨[], 30⟩ ⟨[], 60, ""⟩)).keywords = ["EV"] ∧
      (hydrate ⟨["EV"], 45⟩ (hydrate ⟨[], 30⟩ ⟨[], 60, ""⟩)).interval = 45 :=
  c10_hydration_guard_not_latched ⟨[], 60, ""⟩ ⟨[], 30⟩ ⟨["EV"], 45⟩ rfl rfl

/-- C7 counterexample: the add-then-remove round trip is not the
identity on every keyword sequence.  On the sequence `["Solar"]` the add
is a no-op (the keyword is already present) and the remove deletes the
existing occurrence, so the round trip returns `[]`, not `["Solar"]`. -/
theorem c7_add_remove_counterexample :
    removeKeyword solarStr (addKeyword solarStr [solarStr]) ≠ [solarStr] := by
  decide

/-- C7 (amended): for every keyword sequence that does not already
contain `"Solar"`, adding `"Solar"` and then removing `"Solar"` returns
the sequence unchanged; when `"Solar"` is already present the add is a
no-op and the remove deletes the existing occurrences. -/
theorem c7_add_remove_round_trip (ks : List String) (h : solarStr ∉ ks) :
    removeKeyword solarStr (addKeyword solarStr ks) = ks := by
  have hadd : addKeyword solarStr ks = ks ++ [solarStr] := if_pos ⟨by decide, h⟩
  rw [hadd, removeKeyword, List.filter_append]
  have h1 : List.filter (fun k => decide (k ≠ solarStr)) ks = ks := by
    apply List.filter_eq_self.2
    intro a ha
    have hne : a ≠ solarStr := fun he => h (he ▸ ha)
    simp [hne]
  have h2 : List.filter (fun k => decide (k ≠ solarStr)) [solarStr] = [] := by
    simp
  rw [h1, h2, List.append_nil]

/-- Witness for `c7_add_remove_round_trip` at a concrete sequence. -/
theorem c7_add_remove_round_trip_witness :
    removeKeyword solarStr (addKeyword solarStr ["EV", "Steel"]) = ["EV", "Steel"] :=
  c7_add_remove_round_trip ["EV", "Steel"] (by decide)

/-! ### Analytics record model (AdminSettings `rawNews` payload) -/

/-- A raw analytics news record as consumed (untyped) by the analytics
component.  Per the data model, `sentiment_score` and `impact_score` may
be absent, `urgency` / `risk_type` / `industry_tag` / `published_at` may
be absent; `created_at` is present.  Absent fields are `none`. -/
structure AnalyticsNewsItem where
  id : ℤ
  title : String
  sentiment_score : Option ℚ
  impact_score : Option ℚ
  urgency : Option String
  risk_type : Option String
  industry_tag : Option String
  created_at : ℤ
  published_at : Option ℤ
deriving DecidableEq

/-- `parseISO(item.published_at || item.created_at)`: the timestamp a
record is filtered on in the analytics view. -/
def effectiveDate (i : AnalyticsNewsItem) : ℤ :=
  i.published_at.getD i.created_at

/-- The time filter of `filteredSentimentData`:
`isAfter(parseISO(...), startDate)` keeps items strictly after the
cutoff. -/
def sentimentFiltered (r : TimeRange) (now : ℤ) (l : List AnalyticsNewsItem) :
    List AnalyticsNewsItem :=
  l.filter fun i => analyticsStartDate r now < effectiveDate i

/-- The three sentiment buckets. -/
inductive SBucket
  | positive
  | neutral
  | risk
deriving DecidableEq

/-- The bucket an item falls into in `filteredSentimentData`:
`item.sentiment_score > 7` counts Positive, else `< 4` counts Risk, else
Neutral.  In JavaScript an absent score makes both comparisons false, so
an item without a sentiment score falls through to Neutral. -/
def sentimentBucket (i : AnalyticsNewsItem) : SBucket :=
  match i.sentiment_score with
  | some s => if 7 < s then .positive else if s < 4 then .risk else .neutral
  | none => .neutral

/-- The three counters of `filteredSentimentData`. -/
structure SentCounts where
  positive : ℕ
  neutral : ℕ
  risk : ℕ
deriving DecidableEq

/-- One `forEach` step of the counting loop of `filteredSentimentData`. -/
def sentStep (c : SentCounts) (i : AnalyticsNewsItem) : SentCounts :=
  match i.sentiment_score with
  | some s =>
      if 7 < s then { c with positive := c.positive + 1 }
      else if s < 4 then { c with risk := c.risk + 1 }
      else { c with neutral := c.neutral + 1 }
  | none => { c with neutral := c.neutral + 1 }

/-- `filteredSentimentData`: time-filter, count the three buckets, emit
`[Positive, Neutral, Risk]` (the insertion order of the `counts`
object) and drop zero-count buckets. -/
def filteredSentimentData (r : TimeRange) (now : ℤ) (l : List AnalyticsNewsItem) :
    List (String × ℕ) :=
  let c := List.foldl sentStep ⟨0, 0, 0⟩ (sentimentFiltered r now l)
  ([(positiveStr, c.positive), (neutralStr, c.neutral), (riskStr, c.risk)]).filter
    fun p => 0 < p.2

/-- Dropping zero-count entries does not change the sum of the counts. -/
theorem sum_filter_pos (ps : List (String × ℕ)) :
    ((ps.filter fun p => 0 < p.2).map Prod.snd).sum = (ps.map Prod.snd).sum := by
  induction ps with
  | nil => rfl
  | cons p ps ih =>
      by_cases h : 0 < p.2
      · simp [List.filter_cons, h, ih]
      · simp only [List.filter_cons, decide_eq_true_eq, h, if_false, ih, List.map_cons,
          List.sum_cons]
        omega

/-- One counting step increments exactly the counter of the item's
bucket. -/
theorem sentStep_eq (c : SentCounts) (i : AnalyticsNewsItem) :
    sentStep c i =
      match sentimentBucket i with
      | .positive => { c with positive := c.positive + 1 }
      | .neutral => { c with neutral := c.neutral + 1 }
      | .risk => { c with risk := c.risk + 1 } := by
  unfold sentStep sentimentBucket
  cases i.sentiment_score with
  | none => rfl
  | some s =>
      by_cases h1 : 7 < s
      · simp [h1]
      · by_cases h2 : s < 4 <;> simp [h1, h2]

/-- Characterisation of the counting fold of `filteredSentimentData`. -/
theorem sentFold_char (l : List AnalyticsNewsItem) : ∀ c : SentCounts,
    List.foldl sentStep c l =
      ⟨c.positive + l.countP (fun i => sentimentBucket i = SBucket.positive),
        c.neutral + l.countP (fun i => sentimentBucket i = SBucket.neutral),
        c.risk + l.countP (fun i => sentimentBucket i = SBucket.risk)⟩ := by
  induction l with
  | nil => intro c; simp
  | cons i l ih =>
      intro c
      rw [List.foldl_cons, ih, sentStep_eq]
      rcases hb : sentimentBucket i <;>
        simp [hb, List.countP_cons] <;> omega

/-- Every item falls in exactly one bucket: the three bucket counts sum
to the length of the list. -/
theorem sentBucket_partition (l : List AnalyticsNewsItem) :
    l.countP (fun i => sentimentBucket i = SBucket.positive) +
        l.countP (fun i => sentimentBucket i = SBucket.neutral) +
        l.countP (fun i => sentimentBucket i = SBucket.risk) = l.length := by
  induction l with
  | nil => rfl
  | cons i l ih =>
      rcases hb : sentimentBucket i <;>
        simp [List.countP_cons, hb] <;> omega

/-- A concrete analytics record with no sentiment score, created at
instant 0. -/
def c1Item : AnalyticsNewsItem :=
  ⟨1, "a", none, none, none, none, none, 0, none⟩

/-- C1 counterexample: an item without a defined `sentiment_score` is
not excluded from the view — it is counted in the Neutral bucket — so at
reference instant 0 with the Monthly window a single such item yields
`SentimentMix = [Neutral: 1]`, whose bucket-count sum (1) differs from
the number of time-filtered items with a defined sentiment score (0). -/
theorem c1_sentiment_counterexample :
    filteredSentimentData .Monthly 0 [c1Item] = [(neutralStr, 1)] ∧
      ¬ ((filteredSentimentData .Monthly 0 [c1Item]).map Prod.snd).sum =
          (sentimentFiltered .Monthly 0 [c1Item]).countP
            (fun i => i.sentiment_score.isSome) := by
  constructor
  · rfl
  · decide

/-- C1 (amended): an item without a defined `sentiment_score` is counted
in the Neutral bucket (not excluded), so for every record set, window
and reference instant the sum of the SentimentMix bucket counts equals
the number of time-filtered items — defined sentiment score or not. -/
theorem c1_sentiment_mix_total (r : TimeRange) (now : ℤ) (l : List AnalyticsNewsItem) :
    ((filteredSentimentData r now l).map Prod.snd).sum = (sentimentFiltered r now l).length ∧
      ∀ i ∈ sentimentFiltered r now l, i.sentiment_score = none →
        sentimentBucket i = SBucket.neutral := by
  constructor
  · unfold filteredSentimentData
    rw [sum_filter_pos, sentFold_char]
    have hp := sentBucket_partition (sentimentFiltered r now l)
    simp only [List.map_cons, List.map_nil, List.sum_cons, List.sum_nil]
    omega
  · intro i _ hnone
    unfold sentimentBucket
    rw [hnone]

/-! ### UrgencyImpactCorrelator (`scatterData`) -/

def lowStr : String := "Low"

/-- One point of the urgency/impact scatter view. -/
structure ScatterPoint where
  impact : Option ℚ
  urgency : ℤ
  title : String
  id : ℤ
deriving DecidableEq

/-- The urgency weight of `scatterData`:
`item.urgency === 'High' ? 3 : item.urgency === 'Medium' ? 2 : 1`.
Every value other than `High` and `Medium` — including `Low`, unknown
values and an absent field — takes the final branch and becomes 1. -/
def urgencyWeight (u : Option String) : ℤ :=
  if u = some highStr then 3 else if u = some mediumStr then 2 else 1

/-- `scatterData`: one point per raw record, no filtering. -/
def scatterData (l : List AnalyticsNewsItem) : List ScatterPoint :=
  l.map fun i => ⟨i.impact_score, urgencyWeight i.urgency, i.title, i.id⟩

/-- Modelled from the spec: the correlation view the claim describes, in
which a record whose urgency is outside the enum `High`/`Medium`/`Low`
is rejected from the view as a data-contract violation instead of being
coerced to a weight.  This definition exists only to be compared with
the source's `scatterData`. -/
def scatterDataRejecting (l : List AnalyticsNewsItem) : List ScatterPoint :=
  (l.filter fun i =>
      i.urgency = some highStr ∨ i.urgency = some mediumStr ∨ i.urgency = some lowStr).map
    fun i => ⟨i.impact_score, urgencyWeight i.urgency, i.title, i.id⟩

/-- A concrete record whose urgency field is absent. -/
def c3Item : AnalyticsNewsItem :=
  ⟨2, "b", none, some 5, none, none, none, 0, none⟩

/-- C3 counterexample: a record with an absent urgency is not rejected
from the view — the source's `scatterData` keeps it and coerces its
weight to 1, whereas the view described by the claim would drop it. -/
theorem c3_urgency_counterexample :
    scatterData [c3Item] ≠ scatterDataRejecting [c3Item] ∧
      (scatterData [c3Item]).map ScatterPoint.urgency = [1] := by
  constructor
  · decide
  · rfl

/-- C3 (amended): the view maps urgency `High` to 3 and `Medium` to 2,
and coerces every other or absent urgency value — `Low` included — to
weight 1; every record yields exactly one point, none is rejected. -/
theorem c3_urgency_coerced (l : List AnalyticsNewsItem) :
    (scatterData l).length = l.length ∧
      (∀ i ∈ l,
        (⟨i.impact_score, urgencyWeight i.urgency, i.title, i.id⟩ : ScatterPoint)
          ∈ scatterData l) ∧
      urgencyWeight (some highStr) = 3 ∧
      urgencyWeight (some mediumStr) = 2 ∧
      urgencyWeight (some lowStr) = 1 ∧
      ∀ u : Option String, u ≠ some highStr → u ≠ some mediumStr → urgencyWeight u = 1 := by
  refine ⟨List.length_map l _, fun i hi => List.mem_map_of_mem _ hi, by decide, by decide,
    by decide, fun u h1 h2 => ?_⟩
  unfold urgencyWeight
  rw [if_neg h1, if_neg h2]

/-! ### RiskDistributionCounter (`riskDistributionData`) -/

/-- The fixed, ordered category list of `riskDistributionData`. -/
def risks : List String :=
  ["Policy", "Competition", "Supply Chain", "Financial", "Other", "None"]

/-- `item.risk_type || 'None'`: an absent (or empty-string, which is
falsy in JavaScript) risk type resolves to `None`. -/
def resolveRisk (i : AnalyticsNewsItem) : String :=
  match i.risk_type with
  | none => noneStr
  | some s => if s = "" then noneStr else s

/-- The category an item is counted under: its resolved risk type if
that is one of the six fixed categories (`counts.find` succeeds),
otherwise `Other`. -/
def riskCat (i : AnalyticsNewsItem) : String :=
  if resolveRisk i ∈ risks then resolveRisk i else otherStr

/-- Increment the first counter whose name matches (the effect of
`counts.find(c => c.name === r)` followed by `found.count++`). -/
def bump (nm : String) : List (String × ℕ) → List (String × ℕ)
  | [] => []
  | (k, c) :: rest => if k = nm then (k, c + 1) :: rest else (k, c) :: bump nm rest

/-- `riskDistributionData`: start from the six categories at count 0,
bump one category per item, drop zero-count categories. -/
def riskDistributionData (l : List AnalyticsNewsItem) : List (String × ℕ) :=
  (l.foldl (fun cs i => bump (riskCat i) cs) (risks.map fun nm => (nm, 0))).filter
    fun p => 0 < p.2

/-- `bump` on a table with pairwise-distinct names increments exactly
the matching entry. -/
theorem bump_map (names : List String) (f : String → ℕ) (nm : String)
    (hnd : names.Nodup) :
    bump nm (names.map fun k => (k, f k)) =
      names.map fun k => (k, f k + if k = nm then 1 else 0) := by
  induction names with
  | nil => rfl
  | cons n ns ih =>
      have hn : n ∉ ns := (List.nodup_cons.1 hnd).1
      simp only [List.map_cons, bump]
      by_cases h : n = nm
      · subst h
        simp only [if_pos rfl]
        refine congrArg _ (List.map_congr_left fun k hk => ?_)
        have : k ≠ n := fun he => hn (he ▸ hk)
        simp [this]
      · simp only [if_neg h, ih (List.nodup_cons.1 hnd).2]
        simp [h]

/-- Characterisation of the counting fold of `riskDistributionData`. -/
theorem riskFold_char (l : List AnalyticsNewsItem) : ∀ f : String → ℕ,
    List.foldl (fun cs i => bump (riskCat i) cs) (risks.map fun k => (k, f k)) l =
      risks.map fun k => (k, f k + l.countP fun i => riskCat i = k) := by
  induction l with
  | nil => intro f; simp
  | cons i l ih =>
      intro f
      rw [List.foldl_cons, bump_map risks f (riskCat i) (by decide),
        ih fun k => f k + if k = riskCat i then 1 else 0]
      refine List.map_congr_left fun k _ => ?_
      refine congrArg _ ?_
      rw [List.countP_cons]
      by_cases hk : riskCat i = k
      · subst hk
        have hd : decide (riskCat i = riskCat i) = true := by simp
        rw [if_pos rfl, if_pos hd]
        omega
      · have hk2 : ¬ k = riskCat i := fun he => hk he.symm
        simp [hk, hk2]

/-- Every item's category is one of the six. -/
theorem riskCat_mem (i : AnalyticsNewsItem) : riskCat i ∈ risks := by
  unfold riskCat
  split_ifs with h
  · exact h
  · decide

/-- Summing a pointwise sum of tables is the sum of the two tables. -/
theorem sum_map_add (ns : List String) (f g : String → ℕ) :
    (ns.map fun k => f k + g k).sum = (ns.map f).sum + (ns.map g).sum := by
  induction ns with
  | nil => rfl
  | cons n ns ih =>
      simp only [List.map_cons, List.sum_cons, ih]
      omega

/-- Summing the indicator of `x` over a list of names counts the
occurrences of `x`. -/
theorem sum_ite_eq_count (x : String) (ns : List String) :
    (ns.map fun k => if x = k then 1 else 0).sum = ns.count x := by
  induction ns with
  | nil => rfl
  | cons n ns ih =>
      simp only [List.map_cons, List.sum_cons, ih, List.count_cons]
      by_cases h : x = n
      · subst h
        simp only [if_pos rfl, beq_self_eq_true, if_true]
        omega
      · have h2 : (n == x) = false := beq_eq_false_iff_ne.2 fun he => h he.symm
        simp [h, h2]

/-- Counting per category over the six categories accounts for every
item exactly once. -/
theorem sum_countP_risks (l : List AnalyticsNewsItem) :
    (risks.map fun k => l.countP fun i => riskCat i = k).sum = l.length := by
  induction l with
  | nil => simp
  | cons i l ih =>
      have h1 : (risks.map fun k => (i :: l).countP fun j => riskCat j = k) =
          risks.map fun k =>
            (l.countP fun j => riskCat j = k) + if riskCat i = k then 1 else 0 := by
        refine List.map_congr_left fun k _ => ?_
        rw [List.countP_cons]
        by_cases hk : riskCat i = k <;> simp [hk]
      rw [h1, sum_map_add, ih, sum_ite_eq_count (riskCat i) risks,
        List.count_eq_one_of_mem (by decide) (riskCat_mem i)]
      simp

/-- C4: for every record set, the RiskDistribution is exactly the six
fixed categories in their fixed order — `Policy`, `Competition`,
`Supply Chain`, `Financial`, `Other`, `None` — each carrying the number
of items whose resolved risk type (absent resolves to `None`, a value
outside the list folds into `Other`) equals that category, with
zero-count categories dropped and the relative order of the rest
preserved; consequently the counts sum to the total item count, every
item being counted in exactly one category. -/
theorem c4_risk_distribution (l : List AnalyticsNewsItem) :
    riskDistributionData l =
        (risks.map fun k => (k, l.countP fun i => riskCat i = k)).filter
          (fun p => 0 < p.2) ∧
      ((riskDistributionData l).map Prod.snd).sum = l.length := by
  have hchar : riskDistributionData l =
      (risks.map fun k => (k, l.countP fun i => riskCat i = k)).filter
        (fun p => 0 < p.2) := by
    unfold riskDistributionData
    rw [riskFold_char l fun _ => 0]
    simp
  refine ⟨hchar, ?_⟩
  rw [hchar, sum_filter_pos, List.map_map]
  have : (Prod.snd ∘ fun k => (k, l.countP fun i => riskCat i = k)) =
      fun k => l.countP fun i => riskCat i = k := rfl
  rw [this, sum_countP_risks]

/-! ### Stable sort lemmas

`Array.prototype.sort` is a stable sort; with a consistent comparator it
produces the unique stable sorted permutation, which we model with
`List.insertionSort`.  The lemmas below need only totality of the
comparator relation, not transitivity. -/

/-- Inserting into a locally sorted list keeps it locally sorted,
provided the relation is total. -/
theorem chain'_orderedInsert {α : Type} (r : α → α → Prop) [DecidableRel r]
    (total : ∀ a b, r a b ∨ r b a) (x : α) (l : List α) (h : List.Chain' r l) :
    List.Chain' r (List.orderedInsert r x l) := by
  induction l with
  | nil => simp
  | cons y l ih =>
      rw [List.orderedInsert]
      split_ifs with hxy
      · exact List.chain'_cons.2 ⟨hxy, h⟩
      · have hyx : r y x := (total x y).resolve_left hxy
        have hins := ih h.tail
        cases l with
        | nil => simpa using hyx
        | cons z l' =>
            have hyz : r y z := (List.chain'_cons.1 h).1
            by_cases hxz : r x z
            · rw [List.orderedInsert, if_pos hxz] at hins ⊢
              exact List.chain'_cons.2 ⟨hyx, hins⟩
            · rw [List.orderedInsert, if_neg hxz] at hins ⊢
              exact List.chain'_cons.2 ⟨hyz, hins⟩

/-- The output of insertion sort is locally sorted whenever the relation
is total. -/
theorem chain'_insertionSort {α : Type} (r : α → α → Prop) [DecidableRel r]
    (total : ∀ a b, r a b ∨ r b a) (l : List α) :
    List.Chain' r (List.insertionSort r l) := by
  induction l with
  | nil => simp
  | cons x l ih =>
      rw [List.insertionSort]
      exact chain'_orderedInsert r total x _ ih

/-- A stable sort leaves an already locally sorted list unchanged. -/
theorem insertionSort_eq_self {α : Type} (r : α → α → Prop) [DecidableRel r]
    (l : List α) (h : List.Chain' r l) : List.insertionSort r l = l := by
  induction l with
  | nil => rfl
  | cons x l ih =>
      rw [List.insertionSort, ih h.tail]
      cases l with
      | nil => rfl
      | cons y l' => exact List.orderedInsert_of_le r _ (List.chain'_cons.1 h).1

/-! ### ChronologicalGrouper (news feed `filteredAndSortedNews` sort step and `groupedNews`) -/

/-- A news-feed record, as declared by the feed component's `NewsItem`
type: every score field is present. -/
structure NewsItem where
  id : ℤ
  title : String
  url : String
  summary : String
  sentiment_score : ℚ
  impact_score : ℚ
  urgency : String
  risk_type : String
  action_recommendation : String
  industry_tag : String
  created_at : ℤ
  source_domain : Option String
deriving DecidableEq

/-- The feed's two sort modes. -/
inductive SortMode
  | latest
  | highestImpact
deriving DecidableEq

/-- The `Latest` comparator `(a, b) => parseISO(b.created_at) -
parseISO(a.created_at)`: `a` sorts no later than `b` when the comparator
is non-positive, i.e. when `b.created_at ≤ a.created_at`. -/
def latestRel (a b : NewsItem) : Prop := b.created_at ≤ a.created_at

instance : DecidableRel latestRel := fun a b =>
  inferInstanceAs (Decidable (b.created_at ≤ a.created_at))

/-- The `Highest Impact` comparator `(a, b) => b.impact_score -
a.impact_score`. -/
def impactRel (a b : NewsItem) : Prop := b.impact_score ≤ a.impact_score

instance : DecidableRel impactRel := fun a b =>
  inferInstanceAs (Decidable (b.impact_score ≤ a.impact_score))

/-- Step 1 of the grouper: the stable sort of the filtered set by the
selected mode. -/
def sortNews (m : SortMode) (l : List NewsItem) : List NewsItem :=
  match m with
  | .latest => List.insertionSort latestRel l
  | .highestImpact => List.insertionSort impactRel l

/-- The calendar day of an instant on the linear clock. -/
def dayIndex (t : ℤ) : ℤ := t / 1440

/-- The calendar month of an instant on the linear clock (the argument
of the `'MMMM yyyy'` format). -/
def monthIndex (t : ℤ) : ℤ := t / 43200

/-- The feed's group labels: `Today`, `Yesterday`, `This Week`, or a
month-and-year label. -/
inductive GroupLabel
  | today
  | yesterday
  | thisWeek
  | monthYear (m : ℤ)
deriving DecidableEq

/-- Step 2 of the grouper: the label assigned to a record —
`isToday(date)`, else `isYesterday(date)`, else
`isAfter(date, subDays(new Date(), 7))`, else `format(date, 'MMMM yyyy')`. -/
def groupLabel (now t : ℤ) : GroupLabel :=
  if dayIndex t = dayIndex now then .today
  else if dayIndex t = dayIndex now - 1 then .yesterday
  else if subDays 7 now < t then .thisWeek
  else .monthYear (monthIndex t)

/-- Append a record to its group, creating the group at the end on first
sight (JavaScript object insertion order). -/
def pushGroup (g : GroupLabel) (i : NewsItem) :
    List (GroupLabel × List NewsItem) → List (GroupLabel × List NewsItem)
  | [] => [(g, [i])]
  | (k, items) :: rest =>
      if k = g then (k, items ++ [i]) :: rest
      else (k, items) :: pushGroup g i rest

/-- Step 3 of the grouper: a single pass over the sorted sequence,
emitting groups in first-seen order. -/
def groupedNews (now : ℤ) (l : List NewsItem) : List (GroupLabel × List NewsItem) :=
  l.foldl (fun acc i => pushGroup (groupLabel now i.created_at) i acc) []

/-- The whole `ChronologicalGrouper`: sort by the selected mode, then
group. -/
def chronologicalGrouper (m : SortMode) (now : ℤ) (l : List NewsItem) :
    List (GroupLabel × List NewsItem) :=
  groupedNews now (sortNews m l)

/-- C8: for every record set, sort mode and fixed reference instant,
re-running the ChronologicalGrouper on the item sequence of its own
already-sorted output (the step-1 sort of the same set, same mode)
produces identical groups, in identical order, with identical item order
within each group: the stable sort leaves its own output unchanged and
the grouping pass is a deterministic function of the sorted sequence. -/
theorem c8_grouper_idempotent (m : SortMode) (now : ℤ) (l : List NewsItem) :
    chronologicalGrouper m now (sortNews m l) = chronologicalGrouper m now l := by
  unfold chronologicalGrouper
  congr 1
  cases m with
  | latest =>
      exact insertionSort_eq_self latestRel _
        (chain'_insertionSort latestRel (fun a b => le_total _ _) l)
  | highestImpact =>
      exact insertionSort_eq_self impactRel _
        (chain'_insertionSort impactRel (fun a b => le_total _ _) l)

/-! ### IndustryImpactAggregator (`industryImpactData`) -/

def evStr : String := "EV"

def steelStr : String := "Steel"

/-- JavaScript addition on a possibly-absent operand: `x + undefined` is
`NaN`, and `NaN` propagates; `none` models `NaN`/`undefined`. -/
def jsAdd (a b : Option ℚ) : Option ℚ :=
  match a, b with
  | some x, some y => some (x + y)
  | _, _ => none

/-- `item.industry_tag || 'General'` (empty string is falsy). -/
def resolveTag (i : AnalyticsNewsItem) : String :=
  match i.industry_tag with
  | none => generalStr
  | some s => if s = "" then generalStr else s

/-- One accumulator cell of the aggregation object:
`{name, score, count}`. -/
structure IndEntry where
  name : String
  score : Option ℚ
  count : ℕ
deriving DecidableEq

/-- One `forEach` step of the aggregation: create the cell on first
sight (`{score: 0, count: 0}`) and then `score += impact_score`,
`count += 1`.  Cells keep their first-seen order (object insertion
order). -/
def upsert (tag : String) (sc : Option ℚ) : List IndEntry → List IndEntry
  | [] => [⟨tag, jsAdd (some 0) sc, 1⟩]
  | e :: rest =>
      if e.name = tag then ⟨e.name, jsAdd e.score sc, e.count + 1⟩ :: rest
      else e :: upsert tag sc rest

/-- The aggregation pass of `industryImpactData` over every raw record
(there is no filtering on `impact_score`). -/
def aggregateNews (l : List AnalyticsNewsItem) : List IndEntry :=
  l.foldl (fun acc i => upsert (resolveTag i) i.impact_score acc) []

/-- `parseFloat(x.toFixed(1))`: round to one decimal place, half-up. -/
def round1 (q : ℚ) : ℚ := (round (10 * q) : ℤ) / 10

/-- The `map` step: `{name, score: parseFloat((score/count).toFixed(1))}`.
A `NaN` sum stays `NaN` (`none`). -/
def entryMean (e : IndEntry) : String × Option ℚ :=
  (e.name,
    match e.score with
    | none => none
    | some s => if e.count = 0 then none else some (round1 (s / (e.count : ℚ))))

/-- The sort comparator `(a, b) => b.score - a.score` read as "`a` sorts
no later than `b`": the comparator is non-positive.  When either score
is `NaN` the comparator result is `NaN`, which `Array.prototype.sort`
treats as `+0`, i.e. as a tie. -/
def scoreLe (x y : Option ℚ) : Prop :=
  match x, y with
  | some p, some q => q ≤ p
  | _, _ => True

instance : ∀ x y : Option ℚ, Decidable (scoreLe x y)
  | some p, some q => inferInstanceAs (Decidable (q ≤ p))
  | some _, none => .isTrue trivial
  | none, some _ => .isTrue trivial
  | none, none => .isTrue trivial

/-- The comparator lifted to the mapped `{name, score}` pairs. -/
def entryLe (a b : String × Option ℚ) : Prop := scoreLe a.2 b.2

instance : DecidableRel entryLe := fun a b =>
  inferInstanceAs (Decidable (scoreLe a.2 b.2))

/-- `industryImpactData`: aggregate every record by resolved industry
tag, take the rounded mean per group, sort descending by score. -/
def industryImpactData (l : List AnalyticsNewsItem) : List (String × Option ℚ) :=
  List.insertionSort entryLe ((aggregateNews l).map entryMean)

/-- `NaN` absorbs on the right. -/
theorem jsAdd_none (a : Option ℚ) : jsAdd a none = none := by
  cases a <;> rfl

/-- After an upsert the upserted tag names a cell. -/
theorem upsert_mem_name (tag : String) (sc : Option ℚ) :
    ∀ acc : List IndEntry, tag ∈ (upsert tag sc acc).map IndEntry.name := by
  intro acc
  induction acc with
  | nil => simp [upsert]
  | cons e rest ih =>
      rw [upsert]
      split_ifs with h
      · simp [h]
      · simpa using Or.inr ih

/-- An upsert never removes a cell name. -/
theorem upsert_keeps_name (tag : String) (sc : Option ℚ) (nm : String) :
    ∀ acc : List IndEntry, nm ∈ acc.map IndEntry.name →
      nm ∈ (upsert tag sc acc).map IndEntry.name := by
  intro acc
  induction acc with
  | nil => simp
  | cons e rest ih =>
      intro hm
      rw [List.map_cons, List.mem_cons] at hm
      rw [upsert]
      split_ifs with he
      · rw [List.map_cons, List.mem_cons]
        rcases hm with h | h
        · exact Or.inl h
        · exact Or.inr h
      · rw [List.map_cons, List.mem_cons]
        rcases hm with h | h
        · exact Or.inl h
        · exact Or.inr (ih h)

/-- An upsert with an absent score leaves behind a cell for its tag
whose running sum is `NaN`. -/
theorem upsert_none_estab (tag : String) :
    ∀ acc : List IndEntry,
      ∃ e ∈ upsert tag none acc, e.name = tag ∧ e.score = none := by
  intro acc
  induction acc with
  | nil => exact ⟨⟨tag, jsAdd (some 0) none, 1⟩, by simp [upsert], rfl, rfl⟩
  | cons e rest ih =>
      rw [upsert]
      split_ifs with h
      · exact ⟨⟨e.name, jsAdd e.score none, e.count + 1⟩, by simp, h, jsAdd_none _⟩
      · obtain ⟨w, hw, hn, hs⟩ := ih
        exact ⟨w, List.mem_cons_of_mem _ hw, hn, hs⟩

/-- A `NaN` cell stays `NaN` through any further upsert. -/
theorem upsert_none_pres (tag : String) (sc : Option ℚ) (t : String) :
    ∀ acc : List IndEntry, (∃ e ∈ acc, e.name = t ∧ e.score = none) →
      ∃ e ∈ upsert tag sc acc, e.name = t ∧ e.score = none := by
  intro acc
  induction acc with
  | nil => rintro ⟨e, he, _⟩; exact absurd he (List.not_mem_nil e)
  | cons e rest ih =>
      rintro ⟨w, hw, hn, hs⟩
      rw [upsert]
      rcases List.mem_cons.1 hw with h | h
      · subst h
        split_ifs with he
        · exact ⟨⟨w.name, jsAdd w.score sc, w.count + 1⟩, by simp, hn,
            by rw [hs]; rfl⟩
        · exact ⟨w, List.mem_cons_self _ _, hn, hs⟩
      · split_ifs with he
        · exact ⟨w, List.mem_cons_of_mem _ h, hn, hs⟩
        · obtain ⟨v, hv, hvn, hvs⟩ := ih ⟨w, h, hn, hs⟩
          exact ⟨v, List.mem_cons_of_mem _ hv, hvn, hvs⟩

/-- Fold lemma: every processed record's resolved tag names a cell of
the final aggregation. -/
theorem aggFold_mem_name (t : String) :
    ∀ (l : List AnalyticsNewsItem) (acc : List IndEntry),
      (t ∈ acc.map IndEntry.name ∨ ∃ i ∈ l, resolveTag i = t) →
      t ∈ (l.foldl (fun acc i => upsert (resolveTag i) i.impact_score acc) acc).map
        IndEntry.name := by
  intro l
  induction l with
  | nil =>
      intro acc h
      rcases h with h | ⟨i, hi, _⟩
      · simpa using h
      · exact absurd hi (List.not_mem_nil i)
  | cons i l ih =>
      intro acc h
      rw [List.foldl_cons]
      rcases h with h | ⟨j, hj, hjt⟩
      · exact ih _ (Or.inl (upsert_keeps_name _ _ _ _ h))
      · rcases List.mem_cons.1 hj with rfl | hj'
        · exact ih _ (Or.inl (hjt ▸ upsert_mem_name _ _ _))
        · exact ih _ (Or.inr ⟨j, hj', hjt⟩)

/-- Fold lemma: a record with an absent impact score leaves its group's
running sum `NaN` in the final aggregation. -/
theorem aggFold_none (t : String) :
    ∀ (l : List AnalyticsNewsItem) (acc : List IndEntry),
      ((∃ e ∈ acc, e.name = t ∧ e.score = none) ∨
        ∃ i ∈ l, resolveTag i = t ∧ i.impact_score = none) →
      ∃ e ∈ l.foldl (fun acc i => upsert (resolveTag i) i.impact_score acc) acc,
        e.name = t ∧ e.score = none := by
  intro l
  induction l with
  | nil =>
      intro acc h
      rcases h with h | ⟨i, hi, _⟩
      · simpa using h
      · exact absurd hi (List.not_mem_nil i)
  | cons i l ih =>
      intro acc h
      rw [List.foldl_cons]
      rcases h with h | ⟨j, hj, hjt, hjs⟩
      · exact ih _ (Or.inl (upsert_none_pres _ _ _ _ h))
      · rcases List.mem_cons.1 hj with rfl | hj'
        · refine ih _ (Or.inl ?_)
          rw [hjs]
          exact hjt ▸ upsert_none_estab _ _
        · exact ih _ (Or.inr ⟨j, hj', hjt, hjs⟩)

/-- A concrete record tagged `EV` whose impact score is absent. -/
def c2Item : AnalyticsNewsItem :=
  ⟨3, "c", none, none, none, none, some evStr, 0, none⟩

/-- C2 counterexample: the IndustryRanking view is not computed only
from items with a defined `impact_score`.  A single `EV`-tagged record
with an absent impact score produces the group entry `(EV, NaN)` —
whereas restricting the input to items with a defined score (the claimed
view) produces no group at all. -/
theorem c2_industry_counterexample :
    industryImpactData [c2Item] = [(evStr, none)] ∧
      industryImpactData ([c2Item].filter fun i => i.impact_score.isSome) = [] ∧
      industryImpactData [c2Item] ≠
        industryImpactData ([c2Item].filter fun i => i.impact_score.isSome) := by
  refine ⟨rfl, rfl, ?_⟩
  decide

/-- C2 (amended): the IndustryRanking view is computed from every item,
grouped by `industry_tag` (absent or empty tag resolves to `General`):
every item's resolved tag names an entry of the view, and an item
lacking an `impact_score` still contributes to its group — it poisons
the group's running sum, so the group's mean is undefined (`NaN`). -/
theorem c2_industry_all_items (l : List AnalyticsNewsItem) (i : AnalyticsNewsItem)
    (hi : i ∈ l) :
    resolveTag i ∈ (industryImpactData l).map Prod.fst ∧
      (i.impact_score = none →
        ∃ e ∈ industryImpactData l, e.1 = resolveTag i ∧ e.2 = none) := by
  have hmem : resolveTag i ∈ (aggregateNews l).map IndEntry.name :=
    aggFold_mem_name _ l [] (Or.inr ⟨i, hi, rfl⟩)
  constructor
  · unfold industryImpactData
    have hperm := List.perm_insertionSort entryLe ((aggregateNews l).map entryMean)
    rw [(hperm.map Prod.fst).mem_iff, List.map_map]
    have : (Prod.fst ∘ entryMean) = IndEntry.name := rfl
    rw [this]
    exact hmem
  · intro hnone
    obtain ⟨e, he, hn, hs⟩ := aggFold_none _ l [] (Or.inr ⟨i, hi, rfl, hnone⟩)
    refine ⟨entryMean e, ?_, ?_, ?_⟩
    · unfold industryImpactData
      rw [List.mem_insertionSort]
      exact List.mem_map_of_mem entryMean he
    · exact hn
    · show (match e.score with
        | none => none
        | some s => if e.count = 0 then none else some (round1 (s / (e.count : ℚ)))) = none
      rw [hs]

/-- Witness for `c2_industry_all_items` at a concrete record set. -/
theorem c2_industry_all_items_witness :
    resolveTag c2Item ∈ (industryImpactData [c2Item]).map Prod.fst ∧
      (c2Item.impact_score = none →
        ∃ e ∈ industryImpactData [c2Item], e.1 = resolveTag c2Item ∧ e.2 = none) :=
  c2_industry_all_items [c2Item] c2Item (List.mem_singleton.2 rfl)

/-- The invariant carried by every aggregation cell when every processed
record has a defined impact score in the 0-10 range: a positive count
and a defined running sum bounded by 10 per counted item. -/
def entryInv (e : IndEntry) : Prop :=
  0 < e.count ∧ ∃ s, e.score = some s ∧ 0 ≤ s ∧ s ≤ 10 * (e.count : ℚ)

/-- An upsert with a defined in-range score preserves the cell
invariant. -/
theorem upsert_inv (tag : String) (q : ℚ) (h0 : 0 ≤ q) (h10 : q ≤ 10) :
    ∀ acc : List IndEntry, (∀ e ∈ acc, entryInv e) →
      ∀ e ∈ upsert tag (some q) acc, entryInv e := by
  intro acc
  induction acc with
  | nil =>
      intro _ e he
      rw [upsert, List.mem_singleton] at he
      subst he
      exact ⟨Nat.one_pos, 0 + q, rfl, by linarith, by push_cast; linarith⟩
  | cons f rest ih =>
      intro hinv e he
      rw [upsert] at he
      split_ifs at he with hf
      · rcases List.mem_cons.1 he with rfl | hrest
        · obtain ⟨hc, s, hs, hs0, hs10⟩ := hinv f (List.mem_cons_self _ _)
          refine ⟨Nat.succ_pos _, s + q, ?_, by linarith, ?_⟩
          · show jsAdd f.score (some q) = some (s + q)
            rw [hs]
            rfl
          · push_cast
            linarith
        · exact hinv e (List.mem_cons_of_mem _ hrest)
      · rcases List.mem_cons.1 he with rfl | hrest
        · exact hinv e (List.mem_cons_self _ _)
        · exact ih (fun e' he' => hinv e' (List.mem_cons_of_mem _ he')) e hrest

/-- The fold of `industryImpactData` maintains the cell invariant when
every record has a defined in-range impact score. -/
theorem aggFold_inv :
    ∀ (l : List AnalyticsNewsItem) (acc : List IndEntry),
      (∀ i ∈ l, ∃ q, i.impact_score = some q ∧ 0 ≤ q ∧ q ≤ 10) →
      (∀ e ∈ acc, entryInv e) →
      ∀ e ∈ l.foldl (fun acc i => upsert (resolveTag i) i.impact_score acc) acc,
        entryInv e := by
  intro l
  induction l with
  | nil =>
      intro acc _ hacc e he
      exact hacc e (by simpa using he)
  | cons i l ih =>
      intro acc hall hacc
      rw [List.foldl_cons]
      obtain ⟨q, hq, hq0, hq10⟩ := hall i (List.mem_cons_self _ _)
      refine ih _ (fun j hj => hall j (List.mem_cons_of_mem _ hj)) ?_
      rw [hq]
      exact upsert_inv _ q hq0 hq10 acc hacc

/-- Rounding to one decimal place keeps a value of the 0-10 range in the
0-10 range. -/
theorem round1_bounds (q : ℚ) (h0 : 0 ≤ q) (h10 : q ≤ 10) :
    0 ≤ round1 q ∧ round1 q ≤ 10 := by
  unfold round1
  have hl : (0 : ℤ) ≤ round (10 * q) := by
    rw [round_eq]
    apply Int.floor_nonneg.2
    linarith
  have hu : round (10 * q) ≤ 100 := by
    rw [round_eq]
    have h1 : (10 * q + 1 / 2 : ℚ) ≤ 100 + 1 / 2 := by linarith
    have h2 := Int.floor_mono h1
    have h3 : (⌊(100 + 1 / 2 : ℚ)⌋ : ℤ) = 100 := by norm_num
    rw [h3] at h2
    exact h2
  constructor
  · apply div_nonneg _ (by norm_num)
    exact_mod_cast hl
  · rw [div_le_iff₀ (by norm_num : (0 : ℚ) < 10)]
    calc ((round (10 * q) : ℤ) : ℚ) ≤ 100 := by exact_mod_cast hu
    _ = 10 * 10 := by norm_num

/-- The comparator relation of the ranking sort is total (a `NaN`
comparison counts as a tie). -/
theorem entryLe_total (a b : String × Option ℚ) : entryLe a b ∨ entryLe b a := by
  rcases ha : a.2 with _ | p <;> rcases hb : b.2 with _ | q <;>
    simp [entryLe, scoreLe, ha, hb]
  exact le_total q p

/-- A locally sorted list is locally sorted for any relation implied by
the first on its members. -/
theorem chain'_imp_mem {α : Type} {R S : α → α → Prop} :
    ∀ l : List α, (∀ a ∈ l, ∀ b ∈ l, R a b → S a b) → List.Chain' R l →
      List.Chain' S l := by
  intro l
  induction l with
  | nil =>
      intro _ _
      simp
  | cons x l ih =>
      intro hmem h
      cases l with
      | nil => simp
      | cons y l' =>
          rw [List.chain'_cons] at h ⊢
          refine ⟨hmem x (List.mem_cons_self _ _)
            y (List.mem_cons_of_mem _ (List.mem_cons_self _ _)) h.1, ?_⟩
          exact ih (fun a ha b hb =>
            hmem a (List.mem_cons_of_mem _ ha) b (List.mem_cons_of_mem _ hb)) h.2

/-- A concrete `EV` record with impact score 8. -/
def ev8Item : AnalyticsNewsItem :=
  ⟨4, "d", none, some 8, none, none, some evStr, 0, none⟩

/-- A concrete `EV` record with impact score 6. -/
def ev6Item : AnalyticsNewsItem :=
  ⟨5, "e", none, some 6, none, none, some evStr, 0, none⟩

/-- A concrete `Steel` record whose impact score is absent. -/
def steelNoneItem : AnalyticsNewsItem :=
  ⟨6, "f", none, none, none, none, some steelStr, 0, none⟩

/-- Evaluation of the view on the two-record scenario set: both `EV`
records land in one group whose rounded mean is 7. -/
theorem industry_scenario_eval :
    industryImpactData [ev8Item, ev6Item] = [(evStr, some 7)] := by
  have hmap : (aggregateNews [ev8Item, ev6Item]).map entryMean =
      [(evStr, some (round1 ((0 + 8 + 6 : ℚ) / ((2 : ℕ) : ℚ))))] := rfl
  have h14 : round1 ((0 + 8 + 6 : ℚ) / ((2 : ℕ) : ℚ)) = 7 := by
    norm_num [round1, round_eq]
  unfold industryImpactData
  rw [hmap, h14]
  rfl

/-- Evaluation of the view on a set holding one defined-score record and
one absent-score record. -/
theorem industry_mixed_eval :
    industryImpactData [ev8Item, steelNoneItem]
      = [(evStr, some 8), (steelStr, none)] := by
  have hmap : (aggregateNews [ev8Item, steelNoneItem]).map entryMean =
      [(evStr, some (round1 ((0 + 8 : ℚ) / ((1 : ℕ) : ℚ)))), (steelStr, none)] := rfl
  have h8 : round1 ((0 + 8 : ℚ) / ((1 : ℕ) : ℚ)) = 8 := by
    norm_num [round1, round_eq]
  unfold industryImpactData
  rw [hmap, h8]
  rfl

/-- C9 counterexample: with defined impact scores in range but one item
lacking an impact score — an input the claim admits, since it only asks
that the impact scores lie in range and that at least one item has a
defined score — the view contains the entry `(Steel, NaN)`, whose mean
is undefined rather than within 0-10. -/
theorem c9_industry_ranking_counterexample :
    ev8Item.impact_score = some 8 ∧ steelNoneItem.impact_score = none ∧
      industryImpactData [ev8Item, steelNoneItem]
        = [(evStr, some 8), (steelStr, none)] ∧
      ¬ ∀ e ∈ industryImpactData [ev8Item, steelNoneItem],
          ∃ m : ℚ, e.2 = some m ∧ 0 ≤ m ∧ m ≤ 10 := by
  refine ⟨rfl, rfl, industry_mixed_eval, fun hall => ?_⟩
  obtain ⟨m, hm, _⟩ := hall (steelStr, none) (by rw [industry_mixed_eval]; simp)
  exact Option.noConfusion hm

/-- C9 (amended): for every record set in which every item has a defined
impact score within the 0-10 range of the data model, every
IndustryRanking entry carries a defined mean score with
0 ≤ mean ≤ 10, the mean sequence is non-increasing, and two `EV`
records with impact scores 8 and 6 yield exactly `[(EV, 7.0)]`. -/
theorem c9_industry_ranking (l : List AnalyticsNewsItem)
    (hall : ∀ i ∈ l, ∃ q, i.impact_score = some q ∧ 0 ≤ q ∧ q ≤ 10) :
    (∀ e ∈ industryImpactData l, ∃ m, e.2 = some m ∧ 0 ≤ m ∧ m ≤ 10) ∧
      List.Chain' (fun a b : String × Option ℚ =>
        ∃ p q, a.2 = some p ∧ b.2 = some q ∧ q ≤ p) (industryImpactData l) ∧
      industryImpactData [ev8Item, ev6Item] = [(evStr, some 7)] := by
  have hinv : ∀ e ∈ aggregateNews l, entryInv e :=
    aggFold_inv l [] hall (by simp)
  have hbound : ∀ e ∈ industryImpactData l, ∃ m, e.2 = some m ∧ 0 ≤ m ∧ m ≤ 10 := by
    intro e he
    unfold industryImpactData at he
    rw [List.mem_insertionSort] at he
    obtain ⟨f, hf, rfl⟩ := List.mem_map.1 he
    obtain ⟨hc, s, hs, hs0, hs10⟩ := hinv f hf
    have hpos : (0 : ℚ) < (f.count : ℚ) := by exact_mod_cast hc
    have hmean0 : 0 ≤ s / (f.count : ℚ) := div_nonneg hs0 (le_of_lt hpos)
    have hmean10 : s / (f.count : ℚ) ≤ 10 := by
      rw [div_le_iff₀ hpos]
      linarith
    obtain ⟨hr0, hr10⟩ := round1_bounds _ hmean0 hmean10
    refine ⟨round1 (s / (f.count : ℚ)), ?_, hr0, hr10⟩
    have hcz : f.count ≠ 0 := Nat.pos_iff_ne_zero.1 hc
    simp [entryMean, hs, hcz]
  refine ⟨hbound, ?_, industry_scenario_eval⟩
  have hchain : List.Chain' entryLe (industryImpactData l) := by
    unfold industryImpactData
    exact chain'_insertionSort entryLe entryLe_total _
  refine chain'_imp_mem _ (fun a ha b hb hab => ?_) hchain
  obtain ⟨p, hp, _, _⟩ := hbound a ha
  obtain ⟨q, hq, _, _⟩ := hbound b hb
  refine ⟨p, q, hp, hq, ?_⟩
  unfold entryLe at hab
  rw [hp, hq] at hab
  exact hab

/-- Witness for `c9_industry_ranking` at a concrete record set. -/
theorem c9_industry_ranking_witness :
    (∀ e ∈ industryImpactData [ev8Item], ∃ m, e.2 = some m ∧ 0 ≤ m ∧ m ≤ 10) ∧
      List.Chain' (fun a b : String × Option ℚ =>
        ∃ p q, a.2 = some p ∧ b.2 = some q ∧ q ≤ p) (industryImpactData [ev8Item]) ∧
      industryImpactData [ev8Item, ev6Item] = [(evStr, some 7)] :=
  c9_industry_ranking [ev8Item] (by
    intro i hi
    rw [List.mem_singleton] at hi
    subst hi
    exact ⟨8, rfl, by norm_num, by norm_num⟩)
